import Mathlib

/-!
# Histogram algebra of `src/enc/histogram.h`

A shallow embedding of the three inline functions of the header,
`VP8LHistogramAdd`, `VP8LHistogramRemove` and `VP8LHistogramNumCodes`, and of
the record `VP8LHistogram` they work on.

Conventions of the embedding.

* A C `int` is a Lean `Int` lying in `[INT_MIN, INT_MAX]` (32 bits).  The
  arithmetic operators reduce their exact result into that range
  (`wrapInt`, two's complement), so an overflowing `+=` or `-=` is visible as a
  wrapped value.
* A C array `int t[N]` is a `List Int` of length `N`; `t[i]` is
  `t.getD i 0` and `t[i] = v` is `t.set i v`.
* `p` is passed by pointer and updated in place: the functions return the new
  value of `*p`.  `a` is a pointer to `const` and is only read, so it is an
  argument and never a result.  `p` and `a` are distinct objects.
* `assert(e)` is active: a failed assertion ends the call with `none`.
* The constants `PIX_OR_COPY_CODES_MAX`, `DISTANCE_CODES_MAX` and
  `kLengthCodes` come from `backward_references.h`; they are parameters.
-/

namespace VP8L

/-! ## C `int` -/

/-- Smallest value of a 32-bit `int`. -/
def INT_MIN : Int := -2147483648

/-- Largest value of a 32-bit `int`. -/
def INT_MAX : Int := 2147483647

/-- Reduction of an exact integer into the range of `int` (two's complement). -/
def wrapInt (x : Int) : Int := (x + 2147483648) % 4294967296 - 2147483648

/-- The value is representable as an `int`. -/
def isInt (x : Int) : Prop := INT_MIN ≤ x ∧ x ≤ INT_MAX

instance (x : Int) : Decidable (isInt x) := by unfold isInt; infer_instance

/-- C `x + y` on `int`. -/
def add32 (x y : Int) : Int := wrapInt (x + y)

/-- C `x - y` on `int`. -/
def sub32 (x y : Int) : Int := wrapInt (x - y)

/-- C `x << n` on `int`: defined when the shift amount `n` is non-negative and
less than the width of `int`. -/
def shl32 (x n : Int) : Option Int :=
  if 0 ≤ n ∧ n < 32 then some (wrapInt (x * 2 ^ n.toNat)) else none

/-! ## Constants and the histogram record -/

/-- The constants of `backward_references.h` the header refers to. -/
structure Consts where
  PIX_OR_COPY_CODES_MAX : Nat
  DISTANCE_CODES_MAX : Nat
  kLengthCodes : Int

/-- The record `VP8LHistogram`.  `bit_cost_` is a `double`; no function of the
header reads or computes with it, so it is kept as its 64-bit pattern. -/
structure VP8LHistogram where
  literal_ : List Int
  red_ : List Int
  blue_ : List Int
  alpha_ : List Int
  distance_ : List Int
  palette_code_bits_ : Int
  bit_cost_ : Nat
deriving DecidableEq

/-- The five alphabets of a histogram. -/
inductive Table where
  | literal | red | blue | alpha | distance
deriving DecidableEq, Fintype

/-- Declared length of a count table. -/
def Table.size (c : Consts) : Table → Nat
  | .literal => c.PIX_OR_COPY_CODES_MAX
  | .red => 256
  | .blue => 256
  | .alpha => 256
  | .distance => c.DISTANCE_CODES_MAX

/-- The count table of an alphabet. -/
def VP8LHistogram.table (h : VP8LHistogram) : Table → List Int
  | .literal => h.literal_
  | .red => h.red_
  | .blue => h.blue_
  | .alpha => h.alpha_
  | .distance => h.distance_

/-- The count `h.X[i]` of table `X`. -/
def VP8LHistogram.count (h : VP8LHistogram) (t : Table) (i : Nat) : Int :=
  (h.table t).getD i 0

/-- A list is a C array `int [n]`. -/
def IntArray (n : Nat) (xs : List Int) : Prop :=
  xs.length = n ∧ ∀ x ∈ xs, isInt x

instance (n : Nat) (xs : List Int) : Decidable (IntArray n xs) := by
  unfold IntArray; infer_instance

/-- The value is a `VP8LHistogram` object: every table has its declared length,
every `int` is in range and the `double` is 64 bits wide. -/
def VP8LHistogram.WellFormed (c : Consts) (h : VP8LHistogram) : Prop :=
  (∀ t : Table, IntArray (t.size c) (h.table t)) ∧
  isInt h.palette_code_bits_ ∧ h.bit_cost_ < 2 ^ 64

instance (c : Consts) (h : VP8LHistogram) : Decidable (h.WellFormed c) := by
  unfold VP8LHistogram.WellFormed; infer_instance

/-- Every count of every alphabet is non-negative. -/
def VP8LHistogram.NonNeg (c : Consts) (h : VP8LHistogram) : Prop :=
  ∀ t : Table, ∀ i < t.size c, 0 ≤ h.count t i

instance (c : Consts) (h : VP8LHistogram) : Decidable (h.NonNeg c) := by
  unfold VP8LHistogram.NonNeg; infer_instance

/-- The count of `a` is at most the count of `p` at every index of every
alphabet (`src[i] <= dst[i]`). -/
def VP8LHistogram.CountsLe (c : Consts) (a p : VP8LHistogram) : Prop :=
  ∀ t : Table, ∀ i < t.size c, a.count t i ≤ p.count t i

instance (c : Consts) (a p : VP8LHistogram) : Decidable (a.CountsLe c p) := by
  unfold VP8LHistogram.CountsLe; infer_instance

/-- Every exact sum `p.X[i] + a.X[i]` is representable as an `int`. -/
def VP8LHistogram.SumFits (c : Consts) (p a : VP8LHistogram) : Prop :=
  ∀ t : Table, ∀ i < t.size c, isInt (p.count t i + a.count t i)

instance (c : Consts) (p a : VP8LHistogram) : Decidable (p.SumFits c a) := by
  unfold VP8LHistogram.SumFits; infer_instance

/-- Every exact difference `p.X[i] - a.X[i]` is representable as an `int`. -/
def VP8LHistogram.DiffFits (c : Consts) (p a : VP8LHistogram) : Prop :=
  ∀ t : Table, ∀ i < t.size c, isInt (p.count t i - a.count t i)

instance (c : Consts) (p a : VP8LHistogram) : Decidable (p.DiffFits c a) := by
  unfold VP8LHistogram.DiffFits; infer_instance

/-! ## `VP8LHistogramAdd` -/

/-- Body of the first loop: `p->literal_[i] += a->literal_[i];`. -/
def addLiteralStep (a : VP8LHistogram) (p : VP8LHistogram) (i : Nat) : VP8LHistogram :=
  { p with literal_ := p.literal_.set i (add32 (p.literal_.getD i 0) (a.literal_.getD i 0)) }

/-- Body of the second loop: `p->distance_[i] += a->distance_[i];`. -/
def addDistanceStep (a : VP8LHistogram) (p : VP8LHistogram) (i : Nat) : VP8LHistogram :=
  { p with distance_ := p.distance_.set i (add32 (p.distance_.getD i 0) (a.distance_.getD i 0)) }

/-- Body of the third loop: the `+=` on `red_`, `blue_` and `alpha_`. -/
def addColorStep (a : VP8LHistogram) (p : VP8LHistogram) (i : Nat) : VP8LHistogram :=
  let p := { p with red_ := p.red_.set i (add32 (p.red_.getD i 0) (a.red_.getD i 0)) }
  let p := { p with blue_ := p.blue_.set i (add32 (p.blue_.getD i 0) (a.blue_.getD i 0)) }
  { p with alpha_ := p.alpha_.set i (add32 (p.alpha_.getD i 0) (a.alpha_.getD i 0)) }

/-- The function `VP8LHistogramAdd(p, a)`: three `for (i = 0; i < N; ++i)` loops
run one after the other; the result is the new `*p`. -/
def VP8LHistogramAdd (c : Consts) (p a : VP8LHistogram) : VP8LHistogram :=
  let p := (List.range c.PIX_OR_COPY_CODES_MAX).foldl (addLiteralStep a) p
  let p := (List.range c.DISTANCE_CODES_MAX).foldl (addDistanceStep a) p
  (List.range 256).foldl (addColorStep a) p

/-! ## `VP8LHistogramRemove` -/

/-- Body of the first loop: `p->literal_[i] -= a->literal_[i];` followed by
`assert(p->literal_[i] >= 0);`. -/
def removeLiteralStep (a : VP8LHistogram) (p : VP8LHistogram) (i : Nat) :
    Option VP8LHistogram :=
  let p := { p with literal_ := p.literal_.set i (sub32 (p.literal_.getD i 0) (a.literal_.getD i 0)) }
  if 0 ≤ p.literal_.getD i 0 then some p else none

/-- Body of the second loop: `p->distance_[i] -= a->distance_[i];` followed by
`assert(p->distance_[i] >= 0);`. -/
def removeDistanceStep (a : VP8LHistogram) (p : VP8LHistogram) (i : Nat) :
    Option VP8LHistogram :=
  let p := { p with distance_ := p.distance_.set i (sub32 (p.distance_.getD i 0) (a.distance_.getD i 0)) }
  if 0 ≤ p.distance_.getD i 0 then some p else none

/-- Body of the third loop: the three `-=` on `red_`, `blue_`, `alpha_`, then the
three assertions in the same order. -/
def removeColorStep (a : VP8LHistogram) (p : VP8LHistogram) (i : Nat) :
    Option VP8LHistogram :=
  let p := { p with red_ := p.red_.set i (sub32 (p.red_.getD i 0) (a.red_.getD i 0)) }
  let p := { p with blue_ := p.blue_.set i (sub32 (p.blue_.getD i 0) (a.blue_.getD i 0)) }
  let p := { p with alpha_ := p.alpha_.set i (sub32 (p.alpha_.getD i 0) (a.alpha_.getD i 0)) }
  if 0 ≤ p.red_.getD i 0 then
    if 0 ≤ p.blue_.getD i 0 then
      if 0 ≤ p.alpha_.getD i 0 then some p else none
    else none
  else none

/-- The function `VP8LHistogramRemove(p, a)`: `some` of the new `*p` when the
call runs to its end, `none` when an assertion fails. -/
def VP8LHistogramRemove (c : Consts) (p a : VP8LHistogram) : Option VP8LHistogram :=
  ((List.range c.PIX_OR_COPY_CODES_MAX).foldlM (removeLiteralStep a) p).bind fun p =>
  ((List.range c.DISTANCE_CODES_MAX).foldlM (removeDistanceStep a) p).bind fun p =>
  (List.range 256).foldlM (removeColorStep a) p

/-! ## `VP8LHistogramNumCodes` -/

/-- The function `VP8LHistogramNumCodes(p)`:
`256 + kLengthCodes + (1 << p->palette_code_bits_)`; `none` when the shift is
not defined. -/
def VP8LHistogramNumCodes (c : Consts) (p : VP8LHistogram) : Option Int :=
  (shl32 1 p.palette_code_bits_).map fun s => add32 (add32 256 c.kLengthCodes) s

/-- The length-code count is non-negative and small enough for
`256 + kLengthCodes + 2^30` to be an `int`. -/
def Consts.LengthCodesFit (c : Consts) : Prop :=
  0 ≤ c.kLengthCodes ∧ 256 + c.kLengthCodes + 2 ^ 30 ≤ INT_MAX

instance (c : Consts) : Decidable c.LengthCodesFit := by
  unfold Consts.LengthCodesFit; infer_instance

/-! ## Quantities the properties speak of -/

/-- The entries of `literal_` from index `n` up to the end of the array are
zero: `literal_[i] = 0` for every `i` with `n <= i < PIX_OR_COPY_CODES_MAX`. -/
def VP8LHistogram.LiteralZeroFrom (c : Consts) (h : VP8LHistogram) (n : Int) : Prop :=
  ∀ i < c.PIX_OR_COPY_CODES_MAX, n ≤ (i : Int) → h.count .literal i = 0

instance (c : Consts) (h : VP8LHistogram) (n : Int) : Decidable (h.LiteralZeroFrom c n) := by
  unfold VP8LHistogram.LiteralZeroFrom; infer_instance

/-- Sum of all counts of one table, as an exact integer. -/
def VP8LHistogram.tableSum (h : VP8LHistogram) (t : Table) : Int :=
  (h.table t).sum

/-- Total count mass of a histogram: the sum over the five tables, as an exact
integer. -/
def VP8LHistogram.mass (h : VP8LHistogram) : Int :=
  h.tableSum .literal + h.tableSum .red + h.tableSum .blue + h.tableSum .alpha
    + h.tableSum .distance

/-! ## Sample objects -/

/-- An instantiation of the constants: a literal alphabet of `256 + 24 + 2^11`
codes, 40 distance codes, 24 length codes. -/
def sampleConsts : Consts := ⟨2328, 40, 24⟩

/-- A histogram over `sampleConsts` whose tables are constant except for the
first entry of `literal_`. -/
def sampleHist (first rest : Int) (bits : Int) (cost : Nat) : VP8LHistogram :=
  { literal_ := first :: List.replicate 2327 rest
    red_ := List.replicate 256 rest
    blue_ := List.replicate 256 rest
    alpha_ := List.replicate 256 rest
    distance_ := List.replicate 40 rest
    palette_code_bits_ := bits
    bit_cost_ := cost }

/-! ## Closed forms used in the proofs -/

/-- The loop `for (i = 0; i < n; ++i) p[i] = f(p[i], a[i]);` on one array. -/
def loopSet (f : Int → Int → Int) (a : List Int) (n : Nat) (p : List Int) : List Int :=
  (List.range n).foldl (fun l i => l.set i (f (l.getD i 0) (a.getD i 0))) p

/-- The record after `p.X[i] = f(p.X[i], a.X[i])` has run over every index of
every table; the two scalar fields are those of `p`. -/
def mapTables (f : Int → Int → Int) (c : Consts) (p a : VP8LHistogram) : VP8LHistogram :=
  { literal_ := loopSet f a.literal_ c.PIX_OR_COPY_CODES_MAX p.literal_
    red_ := loopSet f a.red_ 256 p.red_
    blue_ := loopSet f a.blue_ 256 p.blue_
    alpha_ := loopSet f a.alpha_ 256 p.alpha_
    distance_ := loopSet f a.distance_ c.DISTANCE_CODES_MAX p.distance_
    palette_code_bits_ := p.palette_code_bits_
    bit_cost_ := p.bit_cost_ }

/-- Pure part of the first loop body, for `+=` or `-=`. -/
def literalStep (f : Int → Int → Int) (a : VP8LHistogram) (p : VP8LHistogram) (i : Nat) :
    VP8LHistogram :=
  { p with literal_ := p.literal_.set i (f (p.literal_.getD i 0) (a.literal_.getD i 0)) }

/-- Pure part of the second loop body. -/
def distanceStep (f : Int → Int → Int) (a : VP8LHistogram) (p : VP8LHistogram) (i : Nat) :
    VP8LHistogram :=
  { p with distance_ := p.distance_.set i (f (p.distance_.getD i 0) (a.distance_.getD i 0)) }

/-- Pure part of the third loop body. -/
def colorStep (f : Int → Int → Int) (a : VP8LHistogram) (p : VP8LHistogram) (i : Nat) :
    VP8LHistogram :=
  { p with
    red_ := p.red_.set i (f (p.red_.getD i 0) (a.red_.getD i 0))
    blue_ := p.blue_.set i (f (p.blue_.getD i 0) (a.blue_.getD i 0))
    alpha_ := p.alpha_.set i (f (p.alpha_.getD i 0) (a.alpha_.getD i 0)) }

/-- The assertion of iteration `i` on one table: the entry just written is
non-negative. -/
def assertOk (p a : List Int) (i : Nat) : Prop :=
  0 ≤ (loopSet sub32 a (i + 1) p).getD i 0

/-! ## Arithmetic of `int` -/

theorem wrapInt_of_isInt {x : Int} (h : isInt x) : wrapInt x = x := by
  unfold isInt INT_MIN INT_MAX at h
  unfold wrapInt
  omega

theorem isInt_wrapInt (x : Int) : isInt (wrapInt x) := by
  unfold isInt INT_MIN INT_MAX wrapInt
  omega

theorem wrapInt_add_left (x y : Int) : wrapInt (wrapInt x + y) = wrapInt (x + y) := by
  unfold wrapInt
  omega

theorem wrapInt_add_right (x y : Int) : wrapInt (x + wrapInt y) = wrapInt (x + y) := by
  unfold wrapInt
  omega

theorem wrapInt_sub_left (x y : Int) : wrapInt (wrapInt x - y) = wrapInt (x - y) := by
  unfold wrapInt
  omega

theorem add32_comm (x y : Int) : add32 x y = add32 y x := by
  unfold add32
  rw [Int.add_comm]

theorem add32_assoc (x y z : Int) : add32 (add32 x y) z = add32 x (add32 y z) := by
  unfold add32
  rw [wrapInt_add_left, wrapInt_add_right, Int.add_assoc]

theorem sub32_add32_cancel {x : Int} (y : Int) (hx : isInt x) : sub32 (add32 x y) y = x := by
  unfold sub32 add32
  rw [wrapInt_sub_left, Int.add_sub_cancel, wrapInt_of_isInt hx]

theorem add32_sub32_cancel {x : Int} (y : Int) (hx : isInt x) : add32 (sub32 x y) y = x := by
  unfold sub32 add32
  rw [wrapInt_add_left, Int.sub_add_cancel, wrapInt_of_isInt hx]

/-! ## The loops on one table -/

theorem loopSet_zero (f : Int → Int → Int) (a p : List Int) : loopSet f a 0 p = p := rfl

theorem loopSet_succ (f : Int → Int → Int) (a : List Int) (n : Nat) (p : List Int) :
    loopSet f a (n + 1) p
      = (loopSet f a n p).set n (f ((loopSet f a n p).getD n 0) (a.getD n 0)) := by
  simp [loopSet, List.range_succ, List.foldl_append]

theorem loopSet_length (f : Int → Int → Int) (a : List Int) (n : Nat) (p : List Int) :
    (loopSet f a n p).length = p.length := by
  induction n with
  | zero => rfl
  | succ n ih => rw [loopSet_succ, List.length_set, ih]

theorem getD_set (l : List Int) (i j : Nat) (v : Int) :
    (l.set i v).getD j 0 = if i = j ∧ j < l.length then v else l.getD j 0 := by
  simp only [List.getD_eq_getElem?_getD, List.getElem?_set]
  by_cases hij : i = j
  · subst hij
    by_cases hl : i < l.length
    · simp [hl]
    · have e : l[i]? = none := List.getElem?_eq_none (by omega)
      simp [hl, e]
  · simp [hij]

theorem loopSet_getD (f : Int → Int → Int) (a : List Int) (n : Nat) (p : List Int) (j : Nat) :
    (loopSet f a n p).getD j 0
      = if j < n ∧ j < p.length then f (p.getD j 0) (a.getD j 0) else p.getD j 0 := by
  induction n with
  | zero => simp [loopSet_zero]
  | succ n ih =>
    rw [loopSet_succ, getD_set, loopSet_length]
    by_cases hj : n = j
    · subst hj
      have e : (loopSet f a n p).getD n 0 = p.getD n 0 := by
        rw [ih]; simp
      rw [e]
      by_cases hl : n < p.length
      · simp [hl]
      · simp [hl]
    · have h1 : (j < n + 1) = (j < n) := by
        apply propext; omega
      simp only [hj, false_and, if_false, ih, h1]

theorem list_ext_getD {l₁ l₂ : List Int} (hl : l₁.length = l₂.length)
    (h : ∀ j < l₁.length, l₁.getD j 0 = l₂.getD j 0) : l₁ = l₂ := by
  apply List.ext_getElem hl
  intro j h1 h2
  have := h j h1
  rwa [List.getD_eq_getElem _ _ h1, List.getD_eq_getElem _ _ h2] at this

/-! ## Closed form of the loops on the record -/

theorem addLiteralStep_eq (a : VP8LHistogram) : addLiteralStep a = literalStep add32 a := rfl

theorem addDistanceStep_eq (a : VP8LHistogram) : addDistanceStep a = distanceStep add32 a := rfl

theorem addColorStep_eq (a : VP8LHistogram) : addColorStep a = colorStep add32 a := rfl

theorem foldl_literalStep (f : Int → Int → Int) (a : VP8LHistogram) (n : Nat)
    (p : VP8LHistogram) :
    (List.range n).foldl (literalStep f a) p
      = { p with literal_ := loopSet f a.literal_ n p.literal_ } := by
  induction n with
  | zero => rfl
  | succ n ih =>
    rw [List.range_succ, List.foldl_append, ih, loopSet_succ]
    rfl

theorem foldl_distanceStep (f : Int → Int → Int) (a : VP8LHistogram) (n : Nat)
    (p : VP8LHistogram) :
    (List.range n).foldl (distanceStep f a) p
      = { p with distance_ := loopSet f a.distance_ n p.distance_ } := by
  induction n with
  | zero => rfl
  | succ n ih =>
    rw [List.range_succ, List.foldl_append, ih, loopSet_succ]
    rfl

theorem foldl_colorStep (f : Int → Int → Int) (a : VP8LHistogram) (n : Nat)
    (p : VP8LHistogram) :
    (List.range n).foldl (colorStep f a) p
      = { p with
          red_ := loopSet f a.red_ n p.red_
          blue_ := loopSet f a.blue_ n p.blue_
          alpha_ := loopSet f a.alpha_ n p.alpha_ } := by
  induction n with
  | zero => rfl
  | succ n ih =>
    rw [List.range_succ, List.foldl_append, ih, loopSet_succ, loopSet_succ, loopSet_succ]
    rfl

theorem VP8LHistogramAdd_eq (c : Consts) (p a : VP8LHistogram) :
    VP8LHistogramAdd c p a = mapTables add32 c p a := by
  unfold VP8LHistogramAdd
  simp only [addLiteralStep_eq, addDistanceStep_eq, addColorStep_eq, foldl_literalStep,
    foldl_distanceStep, foldl_colorStep]
  rfl

/-! ## Loops with an assertion in the body -/

theorem foldlM_range_guard {S : Type} (step : S → Nat → Option S) (g : S → Nat → S)
    (ok : S → Nat → Prop) (hsome : ∀ s i, ok s i → step s i = some (g s i))
    (hnone : ∀ s i, ¬ ok s i → step s i = none) (n : Nat) (s q : S) :
    (List.range n).foldlM step s = some q ↔
      (∀ i < n, ok ((List.range i).foldl g s) i) ∧ q = (List.range n).foldl g s := by
  induction n generalizing q with
  | zero =>
    simp only [List.range_zero, List.foldlM_nil, List.foldl_nil]
    constructor
    · intro h
      refine ⟨fun i hi => absurd hi (Nat.not_lt_zero i), ?_⟩
      exact (Option.some.inj h).symm
    · rintro ⟨-, rfl⟩
      rfl
  | succ n ih =>
    rw [List.range_succ, List.foldlM_append, List.foldl_append]
    simp only [List.foldlM_cons, List.foldlM_nil, List.foldl_cons, List.foldl_nil]
    constructor
    · intro h
      cases hfold : List.foldlM step s (List.range n) with
      | none => rw [hfold] at h; cases h
      | some s1 =>
        rw [hfold] at h
        obtain ⟨hall, rfl⟩ := (ih s1).1 hfold
        have hstep : step (List.foldl g s (List.range n)) n = some q := by
          simpa using h
        have hok : ok (List.foldl g s (List.range n)) n := by
          by_contra hno
          rw [hnone _ _ hno] at hstep
          cases hstep
        rw [hsome _ _ hok] at hstep
        refine ⟨?_, (Option.some.inj hstep).symm⟩
        intro i hi
        rcases Nat.lt_succ_iff_lt_or_eq.1 hi with h1 | h1
        · exact hall i h1
        · subst h1; exact hok
    · rintro ⟨hall, rfl⟩
      have h0 := (ih _).2 ⟨fun i hi => hall i (Nat.lt_succ_of_lt hi), rfl⟩
      rw [h0]
      simpa using hsome _ _ (hall n (Nat.lt_succ_self n))

theorem removeLiteralStep_some (a p : VP8LHistogram) (i : Nat)
    (h : 0 ≤ (literalStep sub32 a p i).literal_.getD i 0) :
    removeLiteralStep a p i = some (literalStep sub32 a p i) := by
  unfold removeLiteralStep
  exact if_pos h

theorem removeLiteralStep_none (a p : VP8LHistogram) (i : Nat)
    (h : ¬ 0 ≤ (literalStep sub32 a p i).literal_.getD i 0) :
    removeLiteralStep a p i = none := by
  unfold removeLiteralStep
  exact if_neg h

theorem removeDistanceStep_some (a p : VP8LHistogram) (i : Nat)
    (h : 0 ≤ (distanceStep sub32 a p i).distance_.getD i 0) :
    removeDistanceStep a p i = some (distanceStep sub32 a p i) := by
  unfold removeDistanceStep
  exact if_pos h

theorem removeDistanceStep_none (a p : VP8LHistogram) (i : Nat)
    (h : ¬ 0 ≤ (distanceStep sub32 a p i).distance_.getD i 0) :
    removeDistanceStep a p i = none := by
  unfold removeDistanceStep
  exact if_neg h

theorem removeColorStep_def (a p : VP8LHistogram) (i : Nat) :
    removeColorStep a p i =
      if 0 ≤ (colorStep sub32 a p i).red_.getD i 0 then
        if 0 ≤ (colorStep sub32 a p i).blue_.getD i 0 then
          if 0 ≤ (colorStep sub32 a p i).alpha_.getD i 0 then some (colorStep sub32 a p i)
          else none
        else none
      else none := rfl

theorem removeColorStep_some (a p : VP8LHistogram) (i : Nat)
    (h : 0 ≤ (colorStep sub32 a p i).red_.getD i 0 ∧ 0 ≤ (colorStep sub32 a p i).blue_.getD i 0
      ∧ 0 ≤ (colorStep sub32 a p i).alpha_.getD i 0) :
    removeColorStep a p i = some (colorStep sub32 a p i) := by
  rw [removeColorStep_def, if_pos h.1, if_pos h.2.1, if_pos h.2.2]

theorem removeColorStep_none (a p : VP8LHistogram) (i : Nat)
    (h : ¬ (0 ≤ (colorStep sub32 a p i).red_.getD i 0 ∧ 0 ≤ (colorStep sub32 a p i).blue_.getD i 0
      ∧ 0 ≤ (colorStep sub32 a p i).alpha_.getD i 0)) :
    removeColorStep a p i = none := by
  rw [removeColorStep_def]
  by_cases h1 : 0 ≤ (colorStep sub32 a p i).red_.getD i 0
  · by_cases h2 : 0 ≤ (colorStep sub32 a p i).blue_.getD i 0
    · have h3 : ¬ 0 ≤ (colorStep sub32 a p i).alpha_.getD i 0 := fun h3 => h ⟨h1, h2, h3⟩
      rw [if_pos h1, if_pos h2, if_neg h3]
    · rw [if_pos h1, if_neg h2]
  · rw [if_neg h1]

theorem literalStep_foldl (f : Int → Int → Int) (a p : VP8LHistogram) (i : Nat) :
    literalStep f a ((List.range i).foldl (literalStep f a) p) i
      = (List.range (i + 1)).foldl (literalStep f a) p := by
  rw [List.range_succ, List.foldl_append]; rfl

theorem distanceStep_foldl (f : Int → Int → Int) (a p : VP8LHistogram) (i : Nat) :
    distanceStep f a ((List.range i).foldl (distanceStep f a) p) i
      = (List.range (i + 1)).foldl (distanceStep f a) p := by
  rw [List.range_succ, List.foldl_append]; rfl

theorem colorStep_foldl (f : Int → Int → Int) (a p : VP8LHistogram) (i : Nat) :
    colorStep f a ((List.range i).foldl (colorStep f a) p) i
      = (List.range (i + 1)).foldl (colorStep f a) p := by
  rw [List.range_succ, List.foldl_append]; rfl

theorem removeLiteralLoop (a p q : VP8LHistogram) (n : Nat) :
    (List.range n).foldlM (removeLiteralStep a) p = some q ↔
      (∀ i < n, assertOk p.literal_ a.literal_ i) ∧
        q = { p with literal_ := loopSet sub32 a.literal_ n p.literal_ } := by
  rw [foldlM_range_guard (removeLiteralStep a) (literalStep sub32 a)
    (fun s i => 0 ≤ (literalStep sub32 a s i).literal_.getD i 0)
    (removeLiteralStep_some a) (removeLiteralStep_none a)]
  simp only [literalStep_foldl]
  simp only [foldl_literalStep, assertOk]

theorem removeDistanceLoop (a p q : VP8LHistogram) (n : Nat) :
    (List.range n).foldlM (removeDistanceStep a) p = some q ↔
      (∀ i < n, assertOk p.distance_ a.distance_ i) ∧
        q = { p with distance_ := loopSet sub32 a.distance_ n p.distance_ } := by
  rw [foldlM_range_guard (removeDistanceStep a) (distanceStep sub32 a)
    (fun s i => 0 ≤ (distanceStep sub32 a s i).distance_.getD i 0)
    (removeDistanceStep_some a) (removeDistanceStep_none a)]
  simp only [distanceStep_foldl]
  simp only [foldl_distanceStep, assertOk]

theorem removeColorLoop (a p q : VP8LHistogram) (n : Nat) :
    (List.range n).foldlM (removeColorStep a) p = some q ↔
      (∀ i < n, assertOk p.red_ a.red_ i ∧ assertOk p.blue_ a.blue_ i
        ∧ assertOk p.alpha_ a.alpha_ i) ∧
        q = { p with
              red_ := loopSet sub32 a.red_ n p.red_
              blue_ := loopSet sub32 a.blue_ n p.blue_
              alpha_ := loopSet sub32 a.alpha_ n p.alpha_ } := by
  rw [foldlM_range_guard (removeColorStep a) (colorStep sub32 a)
    (fun s i => 0 ≤ (colorStep sub32 a s i).red_.getD i 0
      ∧ 0 ≤ (colorStep sub32 a s i).blue_.getD i 0
      ∧ 0 ≤ (colorStep sub32 a s i).alpha_.getD i 0)
    (removeColorStep_some a) (removeColorStep_none a)]
  simp only [colorStep_foldl]
  simp only [foldl_colorStep, assertOk]

/-- Closed form of `VP8LHistogramRemove`: the call runs to its end exactly when
every assertion holds, and then returns the elementwise difference. -/
theorem VP8LHistogramRemove_eq_some (c : Consts) (p a q : VP8LHistogram) :
    VP8LHistogramRemove c p a = some q ↔
      ((∀ i < c.PIX_OR_COPY_CODES_MAX, assertOk p.literal_ a.literal_ i) ∧
       (∀ i < c.DISTANCE_CODES_MAX, assertOk p.distance_ a.distance_ i) ∧
       (∀ i < 256, assertOk p.red_ a.red_ i ∧ assertOk p.blue_ a.blue_ i
          ∧ assertOk p.alpha_ a.alpha_ i)) ∧
      q = mapTables sub32 c p a := by
  unfold VP8LHistogramRemove
  simp only [Option.bind_eq_some, removeLiteralLoop, removeDistanceLoop, removeColorLoop]
  constructor
  · rintro ⟨q1, ⟨h1, rfl⟩, q2, ⟨h2, rfl⟩, h3, rfl⟩
    exact ⟨⟨h1, h2, h3⟩, rfl⟩
  · rintro ⟨⟨h1, h2, h3⟩, rfl⟩
    exact ⟨_, ⟨h1, rfl⟩, _, ⟨h2, rfl⟩, h3, rfl⟩

/-! ## Counts of a well-formed histogram -/

theorem VP8LHistogram.WellFormed.length {c : Consts} {h : VP8LHistogram} (hw : h.WellFormed c) (t : Table) :
    (h.table t).length = t.size c :=
  (hw.1 t).1

theorem VP8LHistogram.WellFormed.isInt_count {c : Consts} {h : VP8LHistogram} (hw : h.WellFormed c)
    (t : Table) {i : Nat} (hi : i < t.size c) : isInt (h.count t i) := by
  have hl : i < (h.table t).length := by rw [hw.length t]; exact hi
  unfold VP8LHistogram.count
  rw [List.getD_eq_getElem _ _ hl]
  exact (hw.1 t).2 _ (List.getElem_mem hl)

theorem mapTables_table (f : Int → Int → Int) (c : Consts) (p a : VP8LHistogram) (t : Table) :
    (mapTables f c p a).table t = loopSet f (a.table t) (t.size c) (p.table t) := by
  cases t <;> simp only [mapTables, VP8LHistogram.table, Table.size]

theorem mapTables_count (f : Int → Int → Int) {c : Consts} {p : VP8LHistogram}
    (hp : p.WellFormed c) (a : VP8LHistogram) (t : Table) {i : Nat} (hi : i < t.size c) :
    (mapTables f c p a).count t i = f (p.count t i) (a.count t i) := by
  unfold VP8LHistogram.count
  rw [mapTables_table, loopSet_getD, if_pos ⟨hi, by rw [hp.length t]; exact hi⟩]

theorem mapTables_length (f : Int → Int → Int) (c : Consts) (p a : VP8LHistogram) (t : Table) :
    ((mapTables f c p a).table t).length = (p.table t).length := by
  rw [mapTables_table, loopSet_length]

theorem mapTables_wellFormed (f : Int → Int → Int) (hf : ∀ x y, isInt (f x y)) {c : Consts}
    {p : VP8LHistogram} (hp : p.WellFormed c) (a : VP8LHistogram) :
    (mapTables f c p a).WellFormed c := by
  refine ⟨fun t => ⟨?_, ?_⟩, hp.2.1, hp.2.2⟩
  · rw [mapTables_length, hp.length t]
  · intro x hx
    obtain ⟨i, hi, rfl⟩ := List.getElem_of_mem hx
    have hi2 : i < t.size c := by
      rw [mapTables_length, hp.length t] at hi; exact hi
    have e := mapTables_count f hp a t hi2
    unfold VP8LHistogram.count at e
    rw [List.getD_eq_getElem _ _ hi] at e
    rw [e]
    exact hf _ _

theorem hist_ext {p q : VP8LHistogram} (ht : ∀ t, p.table t = q.table t)
    (hb : p.palette_code_bits_ = q.palette_code_bits_) (hc : p.bit_cost_ = q.bit_cost_) :
    p = q := by
  cases p; cases q
  have h1 := ht .literal
  have h2 := ht .red
  have h3 := ht .blue
  have h4 := ht .alpha
  have h5 := ht .distance
  simp only [VP8LHistogram.table] at h1 h2 h3 h4 h5
  simp only [] at hb hc
  subst h1 h2 h3 h4 h5 hb hc
  rfl

theorem table_ext_count {c : Consts} {p q : VP8LHistogram} (t : Table)
    (hp : (p.table t).length = t.size c) (hq : (q.table t).length = t.size c)
    (h : ∀ i < t.size c, p.count t i = q.count t i) : p.table t = q.table t := by
  apply list_ext_getD (hp.trans hq.symm)
  intro j hj
  exact h j (by rw [← hp]; exact hj)

theorem assertOk_iff {p : List Int} (a : List Int) {i : Nat} (hi : i < p.length) :
    assertOk p a i ↔ 0 ≤ sub32 (p.getD i 0) (a.getD i 0) := by
  unfold assertOk
  rw [loopSet_getD, if_pos ⟨Nat.lt_succ_self i, hi⟩]

/-- On a well-formed `p`, `VP8LHistogramRemove` returns exactly when no 32-bit
difference is negative, and the result is the table of differences. -/
theorem remove_eq_some_iff {c : Consts} {p : VP8LHistogram} (hp : p.WellFormed c)
    (a q : VP8LHistogram) :
    VP8LHistogramRemove c p a = some q ↔
      (∀ t : Table, ∀ i < t.size c, 0 ≤ sub32 (p.count t i) (a.count t i)) ∧
      q = mapTables sub32 c p a := by
  rw [VP8LHistogramRemove_eq_some]
  have hlen := fun t => hp.length t
  have key : ∀ (t : Table) (i : Nat), i < t.size c →
      (assertOk (p.table t) (a.table t) i ↔ 0 ≤ sub32 (p.count t i) (a.count t i)) := by
    intro t i hi
    exact assertOk_iff _ (by rw [hlen t]; exact hi)
  constructor
  · rintro ⟨⟨h1, h2, h3⟩, rfl⟩
    refine ⟨?_, rfl⟩
    intro t i hi
    rw [← key t i hi]
    cases t
    · exact h1 i hi
    · exact (h3 i hi).1
    · exact (h3 i hi).2.1
    · exact (h3 i hi).2.2
    · exact h2 i hi
  · rintro ⟨h, rfl⟩
    refine ⟨⟨?_, ?_, ?_⟩, rfl⟩
    · intro i hi
      exact (key .literal i hi).2 (h .literal i hi)
    · intro i hi
      exact (key .distance i hi).2 (h .distance i hi)
    · intro i hi
      exact ⟨(key .red i hi).2 (h .red i hi), (key .blue i hi).2 (h .blue i hi),
        (key .alpha i hi).2 (h .alpha i hi)⟩

theorem remove_eq_none_iff {c : Consts} {p : VP8LHistogram} (hp : p.WellFormed c)
    (a : VP8LHistogram) :
    VP8LHistogramRemove c p a = none ↔
      ∃ t : Table, ∃ i, i < t.size c ∧ sub32 (p.count t i) (a.count t i) < 0 := by
  constructor
  · intro h
    by_contra hno
    have hall : ∀ t : Table, ∀ i < t.size c, 0 ≤ sub32 (p.count t i) (a.count t i) := by
      intro t i hi
      by_contra hneg
      exact hno ⟨t, i, hi, lt_of_not_ge hneg⟩
    have := (remove_eq_some_iff hp a _).2 ⟨hall, rfl⟩
    rw [h] at this
    cases this
  · rintro ⟨t, i, hi, hneg⟩
    cases hr : VP8LHistogramRemove c p a with
    | none => rfl
    | some q =>
      have := ((remove_eq_some_iff hp a q).1 hr).1 t i hi
      exact absurd this (not_le_of_lt hneg)

/-! ## The sample objects -/

theorem sampleHist_table_length (f r b : Int) (k : Nat) (t : Table) :
    ((sampleHist f r b k).table t).length = t.size sampleConsts := by
  cases t <;>
    simp only [sampleHist, VP8LHistogram.table, Table.size, sampleConsts, List.length_cons,
      List.length_replicate]

theorem sampleHist_wellFormed {f r b : Int} {k : Nat} (hf : isInt f) (hr : isInt r)
    (hb : isInt b) (hk : k < 2 ^ 64) : (sampleHist f r b k).WellFormed sampleConsts := by
  refine ⟨fun t => ⟨sampleHist_table_length f r b k t, ?_⟩, hb, hk⟩
  intro x hx
  cases t <;> simp only [sampleHist, VP8LHistogram.table, List.mem_cons, List.mem_replicate] at hx
  · rcases hx with rfl | ⟨-, rfl⟩
    · exact hf
    · exact hr
  all_goals exact hx.2 ▸ hr

theorem sampleHist_count_first (f r b : Int) (k : Nat) :
    (sampleHist f r b k).count .literal 0 = f := rfl

theorem sampleHist_count_rest (f r b : Int) (k : Nat) (t : Table) (i : Nat)
    (hi : i < t.size sampleConsts) (h0 : ¬ (t = .literal ∧ i = 0)) :
    (sampleHist f r b k).count t i = r := by
  cases t
  · have hi0 : i ≠ 0 := fun h => h0 ⟨rfl, h⟩
    obtain ⟨j, rfl⟩ := Nat.exists_eq_succ_of_ne_zero hi0
    have hj : j < 2327 := by
      simp only [Table.size, sampleConsts] at hi; omega
    simp only [VP8LHistogram.count, sampleHist, VP8LHistogram.table, Nat.succ_eq_add_one,
      List.getD_eq_getElem?_getD, List.getElem?_cons_succ, List.getElem?_replicate, if_pos hj,
      Option.getD_some]
  all_goals
    simp only [Table.size, sampleConsts] at hi
    simp only [VP8LHistogram.count, sampleHist, VP8LHistogram.table,
      List.getD_eq_getElem?_getD, List.getElem?_replicate, if_pos hi, Option.getD_some]

theorem sampleHist_count_cases (f r b : Int) (k : Nat) (t : Table) (i : Nat)
    (hi : i < t.size sampleConsts) :
    (sampleHist f r b k).count t i = f ∨ (sampleHist f r b k).count t i = r := by
  by_cases h0 : t = .literal ∧ i = 0
  · obtain ⟨rfl, rfl⟩ := h0
    exact Or.inl rfl
  · exact Or.inr (sampleHist_count_rest f r b k t i hi h0)

theorem sampleHist_nonNeg {f r b : Int} {k : Nat} (hf : 0 ≤ f) (hr : 0 ≤ r) :
    (sampleHist f r b k).NonNeg sampleConsts := by
  intro t i hi
  rcases sampleHist_count_cases f r b k t i hi with h | h <;> rw [h] <;> assumption

/-! ## Shared facts about `VP8LHistogramAdd` and `VP8LHistogramRemove` -/

theorem add_count {c : Consts} {p : VP8LHistogram} (hp : p.WellFormed c) (a : VP8LHistogram)
    (t : Table) {i : Nat} (hi : i < t.size c) :
    (VP8LHistogramAdd c p a).count t i = add32 (p.count t i) (a.count t i) := by
  rw [VP8LHistogramAdd_eq]
  exact mapTables_count add32 hp a t hi

theorem add_wellFormed {c : Consts} {p : VP8LHistogram} (hp : p.WellFormed c)
    (a : VP8LHistogram) : (VP8LHistogramAdd c p a).WellFormed c := by
  rw [VP8LHistogramAdd_eq]
  exact mapTables_wellFormed add32 (fun x y => isInt_wrapInt (x + y)) hp a

theorem remove_wellFormed {c : Consts} {p : VP8LHistogram} (hp : p.WellFormed c)
    {a q : VP8LHistogram} (h : VP8LHistogramRemove c p a = some q) : q.WellFormed c := by
  rw [((remove_eq_some_iff hp a q).1 h).2]
  exact mapTables_wellFormed sub32 (fun x y => isInt_wrapInt (x - y)) hp a

theorem remove_count {c : Consts} {p : VP8LHistogram} (hp : p.WellFormed c)
    {a q : VP8LHistogram} (h : VP8LHistogramRemove c p a = some q)
    (t : Table) {i : Nat} (hi : i < t.size c) :
    q.count t i = sub32 (p.count t i) (a.count t i) := by
  rw [((remove_eq_some_iff hp a q).1 h).2]
  exact mapTables_count sub32 hp a t hi

theorem remove_nonNeg {c : Consts} {p : VP8LHistogram} (hp : p.WellFormed c)
    {a q : VP8LHistogram} (h : VP8LHistogramRemove c p a = some q) : q.NonNeg c := by
  intro t i hi
  rw [remove_count hp h t hi]
  exact ((remove_eq_some_iff hp a q).1 h).1 t i hi

/-! ## The claims -/

/-- C1 (inverse law).  For every histogram `dst` whose counts are all
non-negative and every histogram `src`, `VP8LHistogramAdd(dst, src)` followed by
`VP8LHistogramRemove` with the same `src` runs to its end (no assertion of
`VP8LHistogramRemove` fails) and returns `dst` itself: the counts are those of the
original `dst` at every index of `literal_`, `red_`, `blue_`, `alpha_` and
`distance_`.  This holds also when an addition wraps around. -/
theorem remove_add_inverse (c : Consts) (dst src : VP8LHistogram)
    (hd : dst.WellFormed c) (_hs : src.WellFormed c) (hnn : dst.NonNeg c) :
    VP8LHistogramRemove c (VP8LHistogramAdd c dst src) src = some dst := by
  have hw := add_wellFormed hd src
  rw [remove_eq_some_iff hw]
  have hcount : ∀ t : Table, ∀ i < t.size c,
      sub32 ((VP8LHistogramAdd c dst src).count t i) (src.count t i) = dst.count t i := by
    intro t i hi
    rw [add_count hd src t hi]
    exact sub32_add32_cancel _ (hd.isInt_count t hi)
  refine ⟨?_, ?_⟩
  · intro t i hi
    rw [hcount t i hi]
    exact hnn t i hi
  · apply hist_ext
    · intro t
      apply table_ext_count t (hd.length t)
      · rw [mapTables_length, hw.length t]
      · intro i hi
        rw [mapTables_count sub32 hw src t hi, hcount t i hi]
    · rw [VP8LHistogramAdd_eq]; rfl
    · rw [VP8LHistogramAdd_eq]; rfl

/-- Witness of C1: `dst` holds `INT_MAX` in `literal_[0]`, `src` holds `1` there
and negative counts elsewhere. -/
theorem remove_add_inverse_witness :
    (sampleHist 2147483647 2 5 0).WellFormed sampleConsts ∧
    (sampleHist 1 (-3) 5 0).WellFormed sampleConsts ∧
    (sampleHist 2147483647 2 5 0).NonNeg sampleConsts ∧
    VP8LHistogramRemove sampleConsts
      (VP8LHistogramAdd sampleConsts (sampleHist 2147483647 2 5 0) (sampleHist 1 (-3) 5 0))
      (sampleHist 1 (-3) 5 0) = some (sampleHist 2147483647 2 5 0) :=
  have hd : (sampleHist 2147483647 2 5 0).WellFormed sampleConsts :=
    sampleHist_wellFormed (by decide) (by decide) (by decide) (by decide)
  have hs : (sampleHist 1 (-3) 5 0).WellFormed sampleConsts :=
    sampleHist_wellFormed (by decide) (by decide) (by decide) (by decide)
  have hn : (sampleHist 2147483647 2 5 0).NonNeg sampleConsts :=
    sampleHist_nonNeg (by decide) (by decide)
  ⟨hd, hs, hn, remove_add_inverse sampleConsts _ _ hd hs hn⟩

/-- C2, the claim as stated fails: `p.literal_[0] = a.literal_[0] = 2000000000`,
both non-negative; the exact sum `4000000000` is not an `int`, and after
`VP8LHistogramAdd(p, a)` the count `p.literal_[0]` is `-294967296`, not
`old p.literal_[0] + a.literal_[0]`. -/
theorem add_exact_sum_overflow :
    (sampleHist 2000000000 0 5 0).WellFormed sampleConsts ∧
    (sampleHist 2000000000 0 5 0).count .literal 0 = 2000000000 ∧
    (VP8LHistogramAdd sampleConsts (sampleHist 2000000000 0 5 0)
      (sampleHist 2000000000 0 5 0)).count .literal 0 = -294967296 ∧
    (VP8LHistogramAdd sampleConsts (sampleHist 2000000000 0 5 0)
      (sampleHist 2000000000 0 5 0)).count .literal 0
      ≠ (sampleHist 2000000000 0 5 0).count .literal 0
        + (sampleHist 2000000000 0 5 0).count .literal 0 := by
  have hp : (sampleHist 2000000000 0 5 0).WellFormed sampleConsts :=
    sampleHist_wellFormed (by decide) (by decide) (by decide) (by decide)
  have hv : (VP8LHistogramAdd sampleConsts (sampleHist 2000000000 0 5 0)
      (sampleHist 2000000000 0 5 0)).count .literal 0 = -294967296 := by
    rw [add_count hp _ .literal (by decide)]
    decide
  refine ⟨hp, rfl, hv, ?_⟩
  rw [hv]
  decide

/-- C2, amended.  `VP8LHistogramAdd(p, a)` is elementwise addition on every
alphabet: for every `p` and `a` (distinct objects), at every index `i` of every
table `X` (no index is skipped) the new `p.X[i]` is the 32-bit `int` sum of
`old p.X[i]` and `a.X[i]`, and it is the exact sum `old p.X[i] + a.X[i]` at
every index where that sum is representable as an `int`; every table keeps its
declared length.  `a` is only read. -/
theorem add_elementwise (c : Consts) (p a : VP8LHistogram)
    (hp : p.WellFormed c) (_ha : a.WellFormed c) :
    (∀ t : Table, ∀ i < t.size c,
      (VP8LHistogramAdd c p a).count t i = add32 (p.count t i) (a.count t i)) ∧
    (∀ t : Table, ∀ i < t.size c, isInt (p.count t i + a.count t i) →
      (VP8LHistogramAdd c p a).count t i = p.count t i + a.count t i) ∧
    (∀ t : Table, ((VP8LHistogramAdd c p a).table t).length = t.size c) := by
  refine ⟨fun t i hi => add_count hp a t hi, ?_, fun t => (add_wellFormed hp a).length t⟩
  intro t i hi hfit
  rw [add_count hp a t hi]
  exact wrapInt_of_isInt hfit

/-- Witness of the amended C2: `7 + 1 = 8` at `literal_[0]`. -/
theorem add_elementwise_witness :
    (sampleHist 7 2 5 0).WellFormed sampleConsts ∧
    (sampleHist 1 3 5 0).WellFormed sampleConsts ∧
    (VP8LHistogramAdd sampleConsts (sampleHist 7 2 5 0) (sampleHist 1 3 5 0)).count .literal 0
      = 8 :=
  have hp : (sampleHist 7 2 5 0).WellFormed sampleConsts :=
    sampleHist_wellFormed (by decide) (by decide) (by decide) (by decide)
  have ha : (sampleHist 1 3 5 0).WellFormed sampleConsts :=
    sampleHist_wellFormed (by decide) (by decide) (by decide) (by decide)
  ⟨hp, ha, (add_elementwise sampleConsts _ _ hp ha).2.1 .literal 0 (by decide) (by decide)⟩

/-- C3.  `VP8LHistogramAdd` is associative and commutative as a vector of
counts: for all histograms `x`, `y`, `z` the five count tables of
`add(add(x, y), z)` equal those of `add(x, add(y, z))`, and the five count
tables of `add(x, y)` equal those of `add(y, x)`. -/
theorem add_assoc_comm (c : Consts) (x y z : VP8LHistogram)
    (hx : x.WellFormed c) (hy : y.WellFormed c) (_hz : z.WellFormed c) :
    (∀ t : Table, (VP8LHistogramAdd c (VP8LHistogramAdd c x y) z).table t
      = (VP8LHistogramAdd c x (VP8LHistogramAdd c y z)).table t) ∧
    (∀ t : Table, (VP8LHistogramAdd c x y).table t = (VP8LHistogramAdd c y x).table t) := by
  have hxy := add_wellFormed hx y
  constructor
  · intro t
    apply table_ext_count t ((add_wellFormed hxy z).length t)
      ((add_wellFormed hx (VP8LHistogramAdd c y z)).length t)
    intro i hi
    rw [add_count hxy z t hi, add_count hx y t hi, add_count hx _ t hi, add_count hy z t hi,
      add32_assoc]
  · intro t
    apply table_ext_count t (hxy.length t) ((add_wellFormed hy x).length t)
    intro i hi
    rw [add_count hx y t hi, add_count hy x t hi, add32_comm]

/-- Witness of C3 on three sample histograms, one of the sums wrapping. -/
theorem add_assoc_comm_witness :
    (sampleHist 2147483647 2 5 0).WellFormed sampleConsts ∧
    (sampleHist 1 3 4 1).WellFormed sampleConsts ∧
    (sampleHist (-1) 4 3 2).WellFormed sampleConsts ∧
    (∀ t : Table,
      (VP8LHistogramAdd sampleConsts
        (VP8LHistogramAdd sampleConsts (sampleHist 2147483647 2 5 0) (sampleHist 1 3 4 1))
        (sampleHist (-1) 4 3 2)).table t
      = (VP8LHistogramAdd sampleConsts (sampleHist 2147483647 2 5 0)
        (VP8LHistogramAdd sampleConsts (sampleHist 1 3 4 1) (sampleHist (-1) 4 3 2))).table t) ∧
    (∀ t : Table,
      (VP8LHistogramAdd sampleConsts (sampleHist 2147483647 2 5 0) (sampleHist 1 3 4 1)).table t
      = (VP8LHistogramAdd sampleConsts (sampleHist 1 3 4 1)
        (sampleHist 2147483647 2 5 0)).table t) :=
  have hx : (sampleHist 2147483647 2 5 0).WellFormed sampleConsts :=
    sampleHist_wellFormed (by decide) (by decide) (by decide) (by decide)
  have hy : (sampleHist 1 3 4 1).WellFormed sampleConsts :=
    sampleHist_wellFormed (by decide) (by decide) (by decide) (by decide)
  have hz : (sampleHist (-1) 4 3 2).WellFormed sampleConsts :=
    sampleHist_wellFormed (by decide) (by decide) (by decide) (by decide)
  ⟨hx, hy, hz, add_assoc_comm sampleConsts _ _ _ hx hy hz⟩

theorem sub32_of_fits {x y : Int} (h : isInt (x - y)) : sub32 x y = x - y :=
  wrapInt_of_isInt h

theorem remove_some_of_le {c : Consts} {p a : VP8LHistogram} (hp : p.WellFormed c)
    (hle : a.CountsLe c p) (hfit : p.DiffFits c a) :
    VP8LHistogramRemove c p a = some (mapTables sub32 c p a) := by
  rw [remove_eq_some_iff hp]
  refine ⟨?_, rfl⟩
  intro t i hi
  rw [sub32_of_fits (hfit t i hi)]
  have := hle t i hi
  omega

/-- C4, the claim as stated fails: `a.literal_[0] = -1 <= INT_MAX = p.literal_[0]`
and `a`'s count is at most `p`'s everywhere, yet `INT_MAX - (-1)` wraps to
`INT_MIN`, `assert(p->literal_[0] >= 0)` fails and the call does not complete. -/
theorem remove_le_not_complete :
    (sampleHist 2147483647 0 5 0).WellFormed sampleConsts ∧
    (sampleHist (-1) 0 5 0).WellFormed sampleConsts ∧
    (sampleHist (-1) 0 5 0).CountsLe sampleConsts (sampleHist 2147483647 0 5 0) ∧
    sub32 ((sampleHist 2147483647 0 5 0).count .literal 0)
      ((sampleHist (-1) 0 5 0).count .literal 0) = -2147483648 ∧
    VP8LHistogramRemove sampleConsts (sampleHist 2147483647 0 5 0) (sampleHist (-1) 0 5 0)
      = none := by
  have hp : (sampleHist 2147483647 0 5 0).WellFormed sampleConsts :=
    sampleHist_wellFormed (by decide) (by decide) (by decide) (by decide)
  have ha : (sampleHist (-1) 0 5 0).WellFormed sampleConsts :=
    sampleHist_wellFormed (by decide) (by decide) (by decide) (by decide)
  refine ⟨hp, ha, ?_, by decide, ?_⟩
  · intro t i hi
    by_cases h0 : t = .literal ∧ i = 0
    · obtain ⟨rfl, rfl⟩ := h0
      decide
    · rw [sampleHist_count_rest _ _ _ _ t i hi h0, sampleHist_count_rest _ _ _ _ t i hi h0]
  · rw [remove_eq_none_iff hp]
    exact ⟨.literal, 0, by decide, by decide⟩

/-- C4, amended.  For every `p` and `a` with `a`'s count at most `p`'s count at
every index of every alphabet and every exact difference `p.X[i] - a.X[i]`
representable as an `int` (as it is when `a`'s counts are non-negative),
`VP8LHistogramRemove(p, a)` completes and the new `p.X[i]` is
`old p.X[i] - a.X[i]` for every table `X` and every index `i` of that table;
every table keeps its declared length.  `a` is only read. -/
theorem remove_elementwise (c : Consts) (p a : VP8LHistogram)
    (hp : p.WellFormed c) (_ha : a.WellFormed c)
    (hle : a.CountsLe c p) (hfit : p.DiffFits c a) :
    ∃ q, VP8LHistogramRemove c p a = some q ∧
      (∀ t : Table, ∀ i < t.size c, q.count t i = p.count t i - a.count t i) ∧
      (∀ t : Table, (q.table t).length = t.size c) := by
  have h := remove_some_of_le hp hle hfit
  refine ⟨_, h, ?_, fun t => (remove_wellFormed hp h).length t⟩
  intro t i hi
  rw [remove_count hp h t hi, sub32_of_fits (hfit t i hi)]

theorem sampleHist_rel (R : Int → Int → Prop) {f r b f' r' b' : Int} {k k' : Nat}
    (hf : R f f') (hr : R r r') (t : Table) (i : Nat) (hi : i < t.size sampleConsts) :
    R ((sampleHist f r b k).count t i) ((sampleHist f' r' b' k').count t i) := by
  by_cases h0 : t = .literal ∧ i = 0
  · obtain ⟨rfl, rfl⟩ := h0
    exact hf
  · rw [sampleHist_count_rest _ _ _ _ t i hi h0, sampleHist_count_rest _ _ _ _ t i hi h0]
    exact hr

/-- Witness of the amended C4: removing `(3, 1, 1, ...)` from `(7, 2, 2, ...)`. -/
theorem remove_elementwise_witness :
    (sampleHist 7 2 5 0).WellFormed sampleConsts ∧
    (sampleHist 3 1 5 0).WellFormed sampleConsts ∧
    (sampleHist 3 1 5 0).CountsLe sampleConsts (sampleHist 7 2 5 0) ∧
    (sampleHist 7 2 5 0).DiffFits sampleConsts (sampleHist 3 1 5 0) ∧
    ∃ q, VP8LHistogramRemove sampleConsts (sampleHist 7 2 5 0) (sampleHist 3 1 5 0) = some q ∧
      (∀ t : Table, ∀ i < t.size sampleConsts,
        q.count t i = (sampleHist 7 2 5 0).count t i - (sampleHist 3 1 5 0).count t i) ∧
      (∀ t : Table, (q.table t).length = t.size sampleConsts) :=
  have hp : (sampleHist 7 2 5 0).WellFormed sampleConsts :=
    sampleHist_wellFormed (by decide) (by decide) (by decide) (by decide)
  have ha : (sampleHist 3 1 5 0).WellFormed sampleConsts :=
    sampleHist_wellFormed (by decide) (by decide) (by decide) (by decide)
  have hle : (sampleHist 3 1 5 0).CountsLe sampleConsts (sampleHist 7 2 5 0) :=
    fun t i hi => sampleHist_rel (fun x y => x ≤ y) (by decide) (by decide) t i hi
  have hfit : (sampleHist 7 2 5 0).DiffFits sampleConsts (sampleHist 3 1 5 0) :=
    fun t i hi => sampleHist_rel (fun x y => isInt (x - y)) (by decide) (by decide) t i hi
  ⟨hp, ha, hle, hfit, remove_elementwise sampleConsts _ _ hp ha hle hfit⟩

/-- C5, the claim as stated fails: `a.literal_[0] = 1 > INT_MIN = p.literal_[0]`
violates the precondition, yet `INT_MIN - 1` wraps to `INT_MAX`, every
assertion holds and the call returns a histogram. -/
theorem remove_violation_not_detected :
    (sampleHist (-2147483648) 0 5 0).WellFormed sampleConsts ∧
    (sampleHist 1 0 5 0).WellFormed sampleConsts ∧
    (sampleHist (-2147483648) 0 5 0).count .literal 0 < (sampleHist 1 0 5 0).count .literal 0 ∧
    ∃ q, VP8LHistogramRemove sampleConsts (sampleHist (-2147483648) 0 5 0) (sampleHist 1 0 5 0)
        = some q ∧ q.count .literal 0 = 2147483647 := by
  have hp : (sampleHist (-2147483648) 0 5 0).WellFormed sampleConsts :=
    sampleHist_wellFormed (by decide) (by decide) (by decide) (by decide)
  have ha : (sampleHist 1 0 5 0).WellFormed sampleConsts :=
    sampleHist_wellFormed (by decide) (by decide) (by decide) (by decide)
  have h : VP8LHistogramRemove sampleConsts (sampleHist (-2147483648) 0 5 0)
      (sampleHist 1 0 5 0) = some (mapTables sub32 sampleConsts
        (sampleHist (-2147483648) 0 5 0) (sampleHist 1 0 5 0)) := by
    rw [remove_eq_some_iff hp]
    exact ⟨fun t i hi => sampleHist_rel (fun x y => 0 ≤ sub32 x y) (by decide) (by decide) t i hi,
      rfl⟩
  refine ⟨hp, ha, by decide, _, h, ?_⟩
  rw [remove_count hp h .literal (by decide)]
  decide

/-- C5, amended.  With a failed assertion modelled as an error: provided every
exact difference `p.X[i] - a.X[i]` is representable as an `int` (as it is when
the counts of `p` and `a` are non-negative), `VP8LHistogramRemove(p, a)` fails if
and only if some alphabet has an index `i` with `a`'s count greater than `p`'s
count; and in every case, with or without that proviso and whether or not the
precondition holds, a call that returns never returns a histogram containing a
negative count. -/
theorem remove_fails_iff (c : Consts) (p a : VP8LHistogram)
    (hp : p.WellFormed c) (_ha : a.WellFormed c) :
    (p.DiffFits c a →
      (VP8LHistogramRemove c p a = none ↔
        ∃ t : Table, ∃ i, i < t.size c ∧ p.count t i < a.count t i)) ∧
    (∀ q, VP8LHistogramRemove c p a = some q →
      ∀ t : Table, ∀ i < t.size c, 0 ≤ q.count t i) := by
  constructor
  · intro hfit
    rw [remove_eq_none_iff hp]
    constructor
    · rintro ⟨t, i, hi, h⟩
      rw [sub32_of_fits (hfit t i hi)] at h
      exact ⟨t, i, hi, by omega⟩
    · rintro ⟨t, i, hi, h⟩
      refine ⟨t, i, hi, ?_⟩
      rw [sub32_of_fits (hfit t i hi)]
      omega
  · intro q hq
    exact remove_nonNeg hp hq

/-- Witness of the amended C5.  Removing `(9, 1, 1, ...)` from `(7, 2, 2, ...)`
fails, as `9 > 7` at `literal_[0]`; removing `(1, 0, 0, ...)` from
`(INT_MIN, 0, 0, ...)` violates the precondition, returns, and the returned
histogram has no negative count. -/
theorem remove_fails_iff_witness :
    ((sampleHist 7 2 5 0).WellFormed sampleConsts ∧
      (sampleHist 9 1 5 0).WellFormed sampleConsts ∧
      (sampleHist 7 2 5 0).DiffFits sampleConsts (sampleHist 9 1 5 0) ∧
      VP8LHistogramRemove sampleConsts (sampleHist 7 2 5 0) (sampleHist 9 1 5 0) = none) ∧
    ((sampleHist (-2147483648) 0 5 0).WellFormed sampleConsts ∧
      (sampleHist 1 0 5 0).WellFormed sampleConsts ∧
      (sampleHist (-2147483648) 0 5 0).count .literal 0
        < (sampleHist 1 0 5 0).count .literal 0 ∧
      ∃ q, VP8LHistogramRemove sampleConsts (sampleHist (-2147483648) 0 5 0)
          (sampleHist 1 0 5 0) = some q ∧
        ∀ t : Table, ∀ i < t.size sampleConsts, 0 ≤ q.count t i) :=
  have hp : (sampleHist 7 2 5 0).WellFormed sampleConsts :=
    sampleHist_wellFormed (by decide) (by decide) (by decide) (by decide)
  have ha : (sampleHist 9 1 5 0).WellFormed sampleConsts :=
    sampleHist_wellFormed (by decide) (by decide) (by decide) (by decide)
  have hfit : (sampleHist 7 2 5 0).DiffFits sampleConsts (sampleHist 9 1 5 0) :=
    fun t i hi => sampleHist_rel (fun x y => isInt (x - y)) (by decide) (by decide) t i hi
  have hp2 : (sampleHist (-2147483648) 0 5 0).WellFormed sampleConsts :=
    sampleHist_wellFormed (by decide) (by decide) (by decide) (by decide)
  have ha2 : (sampleHist 1 0 5 0).WellFormed sampleConsts :=
    sampleHist_wellFormed (by decide) (by decide) (by decide) (by decide)
  have h2 : VP8LHistogramRemove sampleConsts (sampleHist (-2147483648) 0 5 0)
      (sampleHist 1 0 5 0) = some (mapTables sub32 sampleConsts
        (sampleHist (-2147483648) 0 5 0) (sampleHist 1 0 5 0)) :=
    (remove_eq_some_iff hp2 _ _).2
      ⟨fun t i hi => sampleHist_rel (fun x y => 0 ≤ sub32 x y) (by decide) (by decide) t i hi,
        rfl⟩
  ⟨⟨hp, ha, hfit, ((remove_fails_iff sampleConsts _ _ hp ha).1 hfit).2
      ⟨.literal, 0, by decide, by decide⟩⟩,
    ⟨hp2, ha2, by decide, _, h2, (remove_fails_iff sampleConsts _ _ hp2 ha2).2 _ h2⟩⟩

/-- C6, the claim as stated fails: `a` has the non-zero count
`a.literal_[0] = 1`, `VP8LHistogramAdd(p, a)` changes `p.literal_[0]` from 7 to 8
and `VP8LHistogramRemove(p, a)` changes it to 6, and in both results `bit_cost_`
still holds the bit pattern 1234 that `p` held before the call. -/
theorem bit_cost_carried_over :
    (sampleHist 1 1 5 99).count .literal 0 ≠ 0 ∧
    (sampleHist 7 2 5 1234).bit_cost_ = 1234 ∧
    (VP8LHistogramAdd sampleConsts (sampleHist 7 2 5 1234) (sampleHist 1 1 5 99)).count
      .literal 0 = 8 ∧
    (VP8LHistogramAdd sampleConsts (sampleHist 7 2 5 1234) (sampleHist 1 1 5 99)).bit_cost_
      = 1234 ∧
    ∃ q, VP8LHistogramRemove sampleConsts (sampleHist 7 2 5 1234) (sampleHist 1 1 5 99)
        = some q ∧ q.count .literal 0 = 6 ∧ q.bit_cost_ = 1234 := by
  have hp : (sampleHist 7 2 5 1234).WellFormed sampleConsts :=
    sampleHist_wellFormed (by decide) (by decide) (by decide) (by decide)
  have hle : (sampleHist 1 1 5 99).CountsLe sampleConsts (sampleHist 7 2 5 1234) :=
    fun t i hi => sampleHist_rel (fun x y => x ≤ y) (by decide) (by decide) t i hi
  have hfit : (sampleHist 7 2 5 1234).DiffFits sampleConsts (sampleHist 1 1 5 99) :=
    fun t i hi => sampleHist_rel (fun x y => isInt (x - y)) (by decide) (by decide) t i hi
  have h := remove_some_of_le hp hle hfit
  refine ⟨by decide, rfl, ?_, ?_, _, h, ?_, rfl⟩
  · rw [add_count hp _ .literal (by decide)]
    decide
  · rw [VP8LHistogramAdd_eq]
    rfl
  · rw [remove_count hp h .literal (by decide)]
    decide

/-- C6, amended.  `VP8LHistogramAdd(p, a)` and a completing
`VP8LHistogramRemove(p, a)` leave `p.bit_cost_` exactly as it was before the
call, whatever the counts of `a`: neither function writes the field, so the
cached cost is carried over unchanged and refreshing it is left to the
caller. -/
theorem bit_cost_unchanged (c : Consts) (p a : VP8LHistogram) :
    (VP8LHistogramAdd c p a).bit_cost_ = p.bit_cost_ ∧
    (∀ q, VP8LHistogramRemove c p a = some q → q.bit_cost_ = p.bit_cost_) := by
  constructor
  · rw [VP8LHistogramAdd_eq]
    rfl
  · intro q hq
    rw [((VP8LHistogramRemove_eq_some c p a q).1 hq).2]
    rfl

/-- Witness of the amended C6 on a completing removal. -/
theorem bit_cost_unchanged_witness :
    VP8LHistogramRemove sampleConsts (sampleHist 7 2 5 1234) (sampleHist 1 1 5 99)
      = some (mapTables sub32 sampleConsts (sampleHist 7 2 5 1234) (sampleHist 1 1 5 99)) ∧
    (mapTables sub32 sampleConsts (sampleHist 7 2 5 1234) (sampleHist 1 1 5 99)).bit_cost_
      = (sampleHist 7 2 5 1234).bit_cost_ :=
  have h : VP8LHistogramRemove sampleConsts (sampleHist 7 2 5 1234) (sampleHist 1 1 5 99)
      = some (mapTables sub32 sampleConsts (sampleHist 7 2 5 1234) (sampleHist 1 1 5 99)) :=
    remove_some_of_le
      (sampleHist_wellFormed (by decide) (by decide) (by decide) (by decide))
      (fun t i hi => sampleHist_rel (fun x y => x ≤ y) (by decide) (by decide) t i hi)
      (fun t i hi => sampleHist_rel (fun x y => isInt (x - y)) (by decide) (by decide) t i hi)
  ⟨h, (bit_cost_unchanged sampleConsts _ _).2 _ h⟩

/-- C8, the claim as stated fails: every count of `p` and of `a` is
non-negative, yet `INT_MAX + 1` wraps and `VP8LHistogramAdd(p, a)` leaves the
negative count `INT_MIN` in `p.literal_[0]`. -/
theorem add_nonNeg_overflow :
    (sampleHist 2147483647 0 5 0).WellFormed sampleConsts ∧
    (sampleHist 1 0 5 0).WellFormed sampleConsts ∧
    (sampleHist 2147483647 0 5 0).NonNeg sampleConsts ∧
    (sampleHist 1 0 5 0).NonNeg sampleConsts ∧
    (VP8LHistogramAdd sampleConsts (sampleHist 2147483647 0 5 0) (sampleHist 1 0 5 0)).count
      .literal 0 = -2147483648 ∧
    ¬ (VP8LHistogramAdd sampleConsts (sampleHist 2147483647 0 5 0)
        (sampleHist 1 0 5 0)).NonNeg sampleConsts := by
  have hp : (sampleHist 2147483647 0 5 0).WellFormed sampleConsts :=
    sampleHist_wellFormed (by decide) (by decide) (by decide) (by decide)
  have ha : (sampleHist 1 0 5 0).WellFormed sampleConsts :=
    sampleHist_wellFormed (by decide) (by decide) (by decide) (by decide)
  have hv : (VP8LHistogramAdd sampleConsts (sampleHist 2147483647 0 5 0)
      (sampleHist 1 0 5 0)).count .literal 0 = -2147483648 := by
    rw [add_count hp _ .literal (by decide)]
    decide
  refine ⟨hp, ha, sampleHist_nonNeg (by decide) (by decide),
    sampleHist_nonNeg (by decide) (by decide), hv, ?_⟩
  intro hnn
  have := hnn .literal 0 (by decide)
  rw [hv] at this
  exact absurd this (by decide)

/-- C8, amended.  On C `int` counts: if every count of `p` and of `a` is
non-negative and every exact sum `p.X[i] + a.X[i]` is representable as an
`int`, then after `VP8LHistogramAdd(p, a)` every count of `p` in every alphabet
is non-negative; under the precondition of `VP8LHistogramRemove` (`a`'s count at
most `p`'s count everywhere, `a`'s counts non-negative) the call completes and
every count of `p` is non-negative; and whenever `VP8LHistogramRemove(p, a)`
completes, every count of `p` is non-negative. -/
theorem nonNeg_preserved (c : Consts) (p a : VP8LHistogram)
    (hp : p.WellFormed c) (_ha : a.WellFormed c) :
    (p.NonNeg c → a.NonNeg c → p.SumFits c a → (VP8LHistogramAdd c p a).NonNeg c) ∧
    (a.CountsLe c p → a.NonNeg c →
      ∃ q, VP8LHistogramRemove c p a = some q ∧ q.NonNeg c) ∧
    (∀ q, VP8LHistogramRemove c p a = some q → q.NonNeg c) := by
  refine ⟨?_, ?_, fun q hq => remove_nonNeg hp hq⟩
  · intro hnp hna hfit t i hi
    rw [add_count hp a t hi]
    unfold add32
    rw [wrapInt_of_isInt (hfit t i hi)]
    have h1 := hnp t i hi
    have h2 := hna t i hi
    omega
  · intro hle hna
    have hfit : p.DiffFits c a := by
      intro t i hi
      have h1 := hle t i hi
      have h2 := hna t i hi
      have h3 := hp.isInt_count t hi
      unfold isInt INT_MIN INT_MAX at *
      constructor <;> omega
    have h := remove_some_of_le hp hle hfit
    exact ⟨_, h, remove_nonNeg hp h⟩

/-- Witness of the amended C8: adding `(1, 3, 3, ...)` to `(7, 2, 2, ...)`. -/
theorem nonNeg_preserved_witness :
    (sampleHist 7 2 5 0).WellFormed sampleConsts ∧
    (sampleHist 1 3 5 0).WellFormed sampleConsts ∧
    (sampleHist 7 2 5 0).NonNeg sampleConsts ∧
    (sampleHist 1 3 5 0).NonNeg sampleConsts ∧
    (sampleHist 7 2 5 0).SumFits sampleConsts (sampleHist 1 3 5 0) ∧
    (VP8LHistogramAdd sampleConsts (sampleHist 7 2 5 0) (sampleHist 1 3 5 0)).NonNeg
      sampleConsts :=
  have hp : (sampleHist 7 2 5 0).WellFormed sampleConsts :=
    sampleHist_wellFormed (by decide) (by decide) (by decide) (by decide)
  have ha : (sampleHist 1 3 5 0).WellFormed sampleConsts :=
    sampleHist_wellFormed (by decide) (by decide) (by decide) (by decide)
  have hnp : (sampleHist 7 2 5 0).NonNeg sampleConsts :=
    sampleHist_nonNeg (by decide) (by decide)
  have hna : (sampleHist 1 3 5 0).NonNeg sampleConsts :=
    sampleHist_nonNeg (by decide) (by decide)
  have hfit : (sampleHist 7 2 5 0).SumFits sampleConsts (sampleHist 1 3 5 0) :=
    fun t i hi => sampleHist_rel (fun x y => isInt (x + y)) (by decide) (by decide) t i hi
  ⟨hp, ha, hnp, hna, hfit, (nonNeg_preserved sampleConsts _ _ hp ha).1 hnp hna hfit⟩

/-! ## `VP8LHistogramNumCodes` -/

theorem two_pow_toNat_bounds {b : Int} (h0 : 0 ≤ b) (h30 : b ≤ 30) :
    (1 : Int) ≤ 2 ^ b.toNat ∧ (2 : Int) ^ b.toNat ≤ 2 ^ 30 := by
  have hn : b.toNat ≤ 30 := by omega
  constructor
  · exact one_le_pow₀ (by norm_num)
  · exact pow_le_pow_right₀ (by norm_num) hn

theorem numCodes_in_range {c : Consts} (hc : c.LengthCodesFit) {p : VP8LHistogram}
    (h0 : 0 ≤ p.palette_code_bits_) (h30 : p.palette_code_bits_ ≤ 30) :
    VP8LHistogramNumCodes c p
      = some (256 + c.kLengthCodes + 2 ^ p.palette_code_bits_.toNat) := by
  obtain ⟨hk0, hk1⟩ := hc
  obtain ⟨hlo, hhi⟩ := two_pow_toNat_bounds h0 h30
  unfold INT_MAX at hk1
  have hshift : shl32 1 p.palette_code_bits_ = some (2 ^ p.palette_code_bits_.toNat) := by
    unfold shl32
    rw [if_pos ⟨h0, by omega⟩, one_mul]
    congr 1
    apply wrapInt_of_isInt
    unfold isInt INT_MIN INT_MAX
    constructor <;> omega
  unfold VP8LHistogramNumCodes
  rw [hshift, Option.map_some']
  congr 1
  unfold add32
  rw [wrapInt_add_left]
  apply wrapInt_of_isInt
  unfold isInt INT_MIN INT_MAX
  constructor <;> omega

/-- C7 (num_codes formula).  For every histogram whose `palette_code_bits_` is
`b` with `0 <= b <= 30`, `VP8LHistogramNumCodes` returns
`256 + kLengthCodes + 2^b`; for `palette_code_bits_ = 5` this is
`256 + kLengthCodes + 32`; and two histograms with the same
`palette_code_bits_` get the same result, whatever their other fields.  The
absent constant `kLengthCodes` is a non-negative count for which
`256 + kLengthCodes + 2^30` is an `int`. -/
theorem numCodes_formula (c : Consts) (hc : c.LengthCodesFit) (p : VP8LHistogram)
    (h0 : 0 ≤ p.palette_code_bits_) (h30 : p.palette_code_bits_ ≤ 30) :
    VP8LHistogramNumCodes c p
      = some (256 + c.kLengthCodes + 2 ^ p.palette_code_bits_.toNat) ∧
    (p.palette_code_bits_ = 5 → VP8LHistogramNumCodes c p = some (256 + c.kLengthCodes + 32)) ∧
    (∀ q : VP8LHistogram, q.palette_code_bits_ = p.palette_code_bits_ →
      VP8LHistogramNumCodes c q = VP8LHistogramNumCodes c p) := by
  refine ⟨numCodes_in_range hc h0 h30, ?_, ?_⟩
  · intro h5
    rw [numCodes_in_range hc h0 h30, h5]
    rfl
  · intro q hq
    unfold VP8LHistogramNumCodes
    rw [hq]

/-- Witness of C7: with 24 length codes and `palette_code_bits_ = 5` the result
is `256 + 24 + 32 = 312`. -/
theorem numCodes_formula_witness :
    sampleConsts.LengthCodesFit ∧
    VP8LHistogramNumCodes sampleConsts (sampleHist 0 0 5 0) = some 312 :=
  ⟨by decide,
    (numCodes_formula sampleConsts (by decide) (sampleHist 0 0 5 0) (by decide) (by decide)).2.1
      rfl⟩

/-- C9, the claim as stated fails: `palette_code_bits_ = -1` is in the domain
of the data model, the shift amount of `1 << palette_code_bits_` is then
negative, the shift is not defined and `VP8LHistogramNumCodes` has no result. -/
theorem numCodes_no_palette_undefined :
    (sampleHist 0 0 (-1) 0).WellFormed sampleConsts ∧
    -1 ≤ (sampleHist 0 0 (-1) 0).palette_code_bits_ ∧
    (sampleHist 0 0 (-1) 0).palette_code_bits_ < 0 ∧
    shl32 1 (sampleHist 0 0 (-1) 0).palette_code_bits_ = none ∧
    VP8LHistogramNumCodes sampleConsts (sampleHist 0 0 (-1) 0) = none :=
  ⟨sampleHist_wellFormed (by decide) (by decide) (by decide) (by decide),
    by decide, by decide, by decide, by decide⟩

/-- C9, amended.  `VP8LHistogramNumCodes` is well defined with the result
`256 + kLengthCodes + 2^palette_code_bits` exactly on `0 <= palette_code_bits_
<= 30`.  The shift amount of `1 << palette_code_bits_` is a valid one
(non-negative and less than the width of `int`) exactly on
`0 <= palette_code_bits_ < 32`; for `-1`, as for every negative value, it is
not, and the function has no result. -/
theorem numCodes_exact_domain (c : Consts) (hc : c.LengthCodesFit) (p : VP8LHistogram) :
    (VP8LHistogramNumCodes c p = some (256 + c.kLengthCodes + 2 ^ p.palette_code_bits_.toNat)
      ↔ 0 ≤ p.palette_code_bits_ ∧ p.palette_code_bits_ ≤ 30) ∧
    (shl32 1 p.palette_code_bits_ = none
      ↔ p.palette_code_bits_ < 0 ∨ 32 ≤ p.palette_code_bits_) ∧
    (p.palette_code_bits_ < 0 → VP8LHistogramNumCodes c p = none) := by
  have hnone : ∀ b : Int, (shl32 1 b = none ↔ b < 0 ∨ 32 ≤ b) := by
    intro b
    unfold shl32
    by_cases h : 0 ≤ b ∧ b < 32
    · rw [if_pos h]
      constructor
      · intro h'; cases h'
      · intro h'; omega
    · rw [if_neg h]
      constructor
      · intro _; omega
      · intro _; rfl
  refine ⟨⟨?_, fun h => numCodes_in_range hc h.1 h.2⟩, hnone _, ?_⟩
  · intro h
    by_contra hb
    by_cases hdef : p.palette_code_bits_ < 0 ∨ 32 ≤ p.palette_code_bits_
    · have hs := (hnone _).2 hdef
      unfold VP8LHistogramNumCodes at h
      rw [hs] at h
      cases h
    · have h31 : p.palette_code_bits_ = 31 := by omega
      obtain ⟨hk0, hk1⟩ := hc
      unfold INT_MAX at hk1
      unfold VP8LHistogramNumCodes shl32 at h
      rw [h31] at h
      have e : (31 : Int).toNat = 31 := rfl
      rw [if_pos (by decide), e, Option.map_some'] at h
      have h2 := Option.some.inj h
      unfold add32 wrapInt at h2
      norm_num at h2
      omega
  · intro hneg
    unfold VP8LHistogramNumCodes
    rw [(hnone _).2 (Or.inl hneg)]
    rfl

/-- Witness of the amended C9: 24 length codes, `palette_code_bits_ = 30`. -/
theorem numCodes_exact_domain_witness :
    sampleConsts.LengthCodesFit ∧
    VP8LHistogramNumCodes sampleConsts (sampleHist 0 0 30 0) = some (256 + 24 + 2 ^ 30) :=
  ⟨by decide,
    (numCodes_exact_domain sampleConsts (by decide) (sampleHist 0 0 30 0)).1.2
      ⟨by decide, by decide⟩⟩

/-- C10, the claim as stated fails: `a`'s count is at most `p`'s count at every
index (`-2000000000 <= 2000000000` at `literal_[0]`), yet the difference wraps to
a negative `int`, the assertion of `VP8LHistogramRemove` fails and there is no
result onto which `a` could be added back. -/
theorem remove_then_add_not_reached :
    (sampleHist 2000000000 5 5 0).WellFormed sampleConsts ∧
    (sampleHist (-2000000000) 1 5 0).WellFormed sampleConsts ∧
    (sampleHist (-2000000000) 1 5 0).CountsLe sampleConsts (sampleHist 2000000000 5 5 0) ∧
    sub32 ((sampleHist 2000000000 5 5 0).count .literal 0)
      ((sampleHist (-2000000000) 1 5 0).count .literal 0) = -294967296 ∧
    (VP8LHistogramRemove sampleConsts (sampleHist 2000000000 5 5 0)
      (sampleHist (-2000000000) 1 5 0)).map (fun q => VP8LHistogramAdd sampleConsts q
        (sampleHist (-2000000000) 1 5 0)) = none := by
  have hp : (sampleHist 2000000000 5 5 0).WellFormed sampleConsts :=
    sampleHist_wellFormed (by decide) (by decide) (by decide) (by decide)
  have ha : (sampleHist (-2000000000) 1 5 0).WellFormed sampleConsts :=
    sampleHist_wellFormed (by decide) (by decide) (by decide) (by decide)
  have hnone : VP8LHistogramRemove sampleConsts (sampleHist 2000000000 5 5 0)
      (sampleHist (-2000000000) 1 5 0) = none := by
    rw [remove_eq_none_iff hp]
    exact ⟨.literal, 0, by decide, by decide⟩
  refine ⟨hp, ha, ?_, by decide, ?_⟩
  · exact fun t i hi => sampleHist_rel (fun x y => x ≤ y) (by decide) (by decide) t i hi
  · rw [hnone]
    rfl

/-- C10 (reverse round trip), amended.  For every `p` and `a` with `a`'s count at
most `p`'s count at every index of every alphabet and every exact difference
`p.X[i] - a.X[i]` representable as an `int` (as it is when `a`'s counts are
non-negative), `VP8LHistogramRemove(p, a)` completes and `VP8LHistogramAdd` of
the same `a` onto its result gives back `p` itself, so counts identical to the
original `p` in every alphabet; and whenever `VP8LHistogramRemove(p, a)`
completes, adding `a` back restores `p`. -/
theorem add_remove_inverse (c : Consts) (p a : VP8LHistogram)
    (hp : p.WellFormed c) (_ha : a.WellFormed c) :
    (a.CountsLe c p → p.DiffFits c a →
      ∃ q, VP8LHistogramRemove c p a = some q ∧ VP8LHistogramAdd c q a = p) ∧
    (∀ q, VP8LHistogramRemove c p a = some q → VP8LHistogramAdd c q a = p) := by
  have hback : ∀ q, VP8LHistogramRemove c p a = some q → VP8LHistogramAdd c q a = p := by
    intro q hq
    have hq' := remove_wellFormed hp hq
    apply hist_ext
    · intro t
      apply table_ext_count t ((add_wellFormed hq' a).length t) (hp.length t)
      intro i hi
      rw [add_count hq' a t hi, remove_count hp hq t hi]
      exact add32_sub32_cancel _ (hp.isInt_count t hi)
    · rw [VP8LHistogramAdd_eq, ((remove_eq_some_iff hp a q).1 hq).2]; rfl
    · rw [VP8LHistogramAdd_eq, ((remove_eq_some_iff hp a q).1 hq).2]; rfl
  refine ⟨?_, hback⟩
  intro hle hfit
  exact ⟨_, remove_some_of_le hp hle hfit, hback _ (remove_some_of_le hp hle hfit)⟩

/-- Witness of the amended C10: `(3, 1, 1, ...)` removed from `(7, 2, 2, ...)` and
added back. -/
theorem add_remove_inverse_witness :
    (sampleHist 7 2 5 0).WellFormed sampleConsts ∧
    (sampleHist 3 1 5 0).WellFormed sampleConsts ∧
    (sampleHist 3 1 5 0).CountsLe sampleConsts (sampleHist 7 2 5 0) ∧
    (sampleHist 7 2 5 0).DiffFits sampleConsts (sampleHist 3 1 5 0) ∧
    ∃ q, VP8LHistogramRemove sampleConsts (sampleHist 7 2 5 0) (sampleHist 3 1 5 0) = some q ∧
      VP8LHistogramAdd sampleConsts q (sampleHist 3 1 5 0) = sampleHist 7 2 5 0 :=
  have hp : (sampleHist 7 2 5 0).WellFormed sampleConsts :=
    sampleHist_wellFormed (by decide) (by decide) (by decide) (by decide)
  have ha : (sampleHist 3 1 5 0).WellFormed sampleConsts :=
    sampleHist_wellFormed (by decide) (by decide) (by decide) (by decide)
  have hle : (sampleHist 3 1 5 0).CountsLe sampleConsts (sampleHist 7 2 5 0) :=
    fun t i hi => sampleHist_rel (fun x y => x ≤ y) (by decide) (by decide) t i hi
  have hfit : (sampleHist 7 2 5 0).DiffFits sampleConsts (sampleHist 3 1 5 0) :=
    fun t i hi => sampleHist_rel (fun x y => isInt (x - y)) (by decide) (by decide) t i hi
  ⟨hp, ha, hle, hfit, (add_remove_inverse sampleConsts _ _ hp ha).1 hle hfit⟩

/-! ## Frame of the two operators -/

theorem add_palette_code_bits (c : Consts) (p a : VP8LHistogram) :
    (VP8LHistogramAdd c p a).palette_code_bits_ = p.palette_code_bits_ := by
  rw [VP8LHistogramAdd_eq]
  rfl

theorem remove_palette_code_bits {c : Consts} {p a q : VP8LHistogram}
    (h : VP8LHistogramRemove c p a = some q) :
    q.palette_code_bits_ = p.palette_code_bits_ := by
  rw [((VP8LHistogramRemove_eq_some c p a q).1 h).2]
  rfl

theorem numCodes_congr (c : Consts) {p q : VP8LHistogram}
    (h : q.palette_code_bits_ = p.palette_code_bits_) :
    VP8LHistogramNumCodes c q = VP8LHistogramNumCodes c p := by
  unfold VP8LHistogramNumCodes
  rw [h]

theorem add32_zero_zero : add32 0 0 = 0 := by decide

/-- C11.  The valid-domain invariant of `literal_` is kept by add for equal
palette sizes: if `p` and `a` have the same `palette_code_bits_`, `n` is
`VP8LHistogramNumCodes` of `p` (hence of `a`), and both have `literal_[i] = 0`
for every `i` with `n <= i < PIX_OR_COPY_CODES_MAX`, then after
`VP8LHistogramAdd(p, a)` the histogram `p` has the same
`VP8LHistogramNumCodes` and still has `literal_[i] = 0` for every such `i`.
`VP8LHistogramAdd` performs no check that the two `palette_code_bits_` agree:
it returns for every pair and its result is the same whatever
`palette_code_bits_` the histogram `a` carries; with different palette sizes the
invariant can be lost (`p` with 5 bits and all counts zero, `a` with 11 bits
and `literal_[312] = 1`). -/
theorem add_keeps_literal_domain (c : Consts) (p a : VP8LHistogram)
    (hp : p.WellFormed c) (_ha : a.WellFormed c)
    (hb : a.palette_code_bits_ = p.palette_code_bits_)
    (n : Int) (hn : VP8LHistogramNumCodes c p = some n)
    (hpz : p.LiteralZeroFrom c n) (haz : a.LiteralZeroFrom c n) :
    (VP8LHistogramNumCodes c a = some n ∧
      VP8LHistogramNumCodes c (VP8LHistogramAdd c p a) = some n ∧
      (VP8LHistogramAdd c p a).LiteralZeroFrom c n) ∧
    (∀ b : Int, VP8LHistogramAdd c p { a with palette_code_bits_ := b }
      = VP8LHistogramAdd c p a) ∧
    (∃ p' a' : VP8LHistogram, p'.WellFormed sampleConsts ∧ a'.WellFormed sampleConsts ∧
      a'.palette_code_bits_ ≠ p'.palette_code_bits_ ∧
      VP8LHistogramNumCodes sampleConsts p' = some 312 ∧
      VP8LHistogramNumCodes sampleConsts a' = some 2328 ∧
      p'.LiteralZeroFrom sampleConsts 312 ∧ a'.LiteralZeroFrom sampleConsts 2328 ∧
      VP8LHistogramNumCodes sampleConsts (VP8LHistogramAdd sampleConsts p' a') = some 312 ∧
      (VP8LHistogramAdd sampleConsts p' a').count .literal 312 = 1) := by
  refine ⟨⟨?_, ?_, ?_⟩, ?_, ?_⟩
  · rw [numCodes_congr c hb, hn]
  · rw [numCodes_congr c (add_palette_code_bits c p a), hn]
  · intro i hi hni
    have hi' : i < Table.size c .literal := hi
    rw [add_count hp a .literal hi', hpz i hi hni, haz i hi hni]
    exact add32_zero_zero
  · intro b
    rw [VP8LHistogramAdd_eq, VP8LHistogramAdd_eq]
    rfl
  · have hp' : (sampleHist 0 0 5 0).WellFormed sampleConsts :=
      sampleHist_wellFormed (by decide) (by decide) (by decide) (by decide)
    have ha' : (sampleHist 0 1 11 0).WellFormed sampleConsts :=
      sampleHist_wellFormed (by decide) (by decide) (by decide) (by decide)
    refine ⟨sampleHist 0 0 5 0, sampleHist 0 1 11 0, hp', ha', by decide, by decide, by decide,
      ?_, ?_, ?_, ?_⟩
    · intro i hi _
      rcases sampleHist_count_cases 0 0 5 0 .literal i hi with h | h <;> exact h
    · intro i hi hni
      have : ((2328 : Nat) : Int) = 2328 := rfl
      have hi2 : i < 2328 := hi
      omega
    · rw [numCodes_congr sampleConsts (add_palette_code_bits sampleConsts _ _)]
      decide
    · rw [add_count hp' _ .literal (by decide),
        sampleHist_count_rest 0 0 5 0 .literal 312 (by decide) (by decide),
        sampleHist_count_rest 0 1 11 0 .literal 312 (by decide) (by decide)]
      decide

theorem sampleHist_literalZeroFrom (f b : Int) (k : Nat) (n : Int) (hn : 0 < n) :
    (sampleHist f 0 b k).LiteralZeroFrom sampleConsts n := by
  intro i hi hni
  apply sampleHist_count_rest f 0 b k .literal i hi
  rintro ⟨-, rfl⟩
  have : ((0 : Nat) : Int) = 0 := rfl
  omega

/-- Witness of C11: two histograms with `palette_code_bits_ = 5`, hence 312
codes, counts 7 and 2 in `literal_[0]` and zero from index 1 on. -/
theorem add_keeps_literal_domain_witness :
    (sampleHist 7 0 5 0).WellFormed sampleConsts ∧
    (sampleHist 2 0 5 0).WellFormed sampleConsts ∧
    (sampleHist 2 0 5 0).palette_code_bits_ = (sampleHist 7 0 5 0).palette_code_bits_ ∧
    VP8LHistogramNumCodes sampleConsts (sampleHist 7 0 5 0) = some 312 ∧
    (sampleHist 7 0 5 0).LiteralZeroFrom sampleConsts 312 ∧
    (sampleHist 2 0 5 0).LiteralZeroFrom sampleConsts 312 ∧
    VP8LHistogramNumCodes sampleConsts
      (VP8LHistogramAdd sampleConsts (sampleHist 7 0 5 0) (sampleHist 2 0 5 0)) = some 312 ∧
    (VP8LHistogramAdd sampleConsts (sampleHist 7 0 5 0) (sampleHist 2 0 5 0)).LiteralZeroFrom
      sampleConsts 312 :=
  have hp : (sampleHist 7 0 5 0).WellFormed sampleConsts :=
    sampleHist_wellFormed (by decide) (by decide) (by decide) (by decide)
  have ha : (sampleHist 2 0 5 0).WellFormed sampleConsts :=
    sampleHist_wellFormed (by decide) (by decide) (by decide) (by decide)
  have hpz : (sampleHist 7 0 5 0).LiteralZeroFrom sampleConsts 312 :=
    sampleHist_literalZeroFrom 7 5 0 312 (by decide)
  have haz : (sampleHist 2 0 5 0).LiteralZeroFrom sampleConsts 312 :=
    sampleHist_literalZeroFrom 2 5 0 312 (by decide)
  ⟨hp, ha, rfl, by decide, hpz, haz,
    (add_keeps_literal_domain sampleConsts _ _ hp ha rfl 312 (by decide) hpz haz).1.2⟩

/-- C12 (frame of the algebra operators).  For every `p` and `a`,
`VP8LHistogramAdd(p, a)` and a completing `VP8LHistogramRemove(p, a)` leave
`p.palette_code_bits_` unchanged, whatever `a.palette_code_bits_` is, so
`VP8LHistogramNumCodes(p)` is the same before and after the call. -/
theorem palette_code_bits_frame (c : Consts) (p a : VP8LHistogram) :
    ((VP8LHistogramAdd c p a).palette_code_bits_ = p.palette_code_bits_ ∧
      VP8LHistogramNumCodes c (VP8LHistogramAdd c p a) = VP8LHistogramNumCodes c p) ∧
    (∀ q, VP8LHistogramRemove c p a = some q →
      q.palette_code_bits_ = p.palette_code_bits_ ∧
      VP8LHistogramNumCodes c q = VP8LHistogramNumCodes c p) :=
  ⟨⟨add_palette_code_bits c p a, numCodes_congr c (add_palette_code_bits c p a)⟩,
    fun _ hq => ⟨remove_palette_code_bits hq, numCodes_congr c (remove_palette_code_bits hq)⟩⟩

/-- Witness of C12: `p` has 5 palette bits (312 codes), `a` has 11 (2328 codes);
a completing removal of `a` leaves `p` with 5 bits and 312 codes. -/
theorem palette_code_bits_frame_witness :
    VP8LHistogramRemove sampleConsts (sampleHist 7 2 5 0) (sampleHist 3 1 11 0)
      = some (mapTables sub32 sampleConsts (sampleHist 7 2 5 0) (sampleHist 3 1 11 0)) ∧
    VP8LHistogramNumCodes sampleConsts (sampleHist 3 1 11 0) = some 2328 ∧
    (mapTables sub32 sampleConsts (sampleHist 7 2 5 0)
      (sampleHist 3 1 11 0)).palette_code_bits_ = 5 ∧
    VP8LHistogramNumCodes sampleConsts
      (mapTables sub32 sampleConsts (sampleHist 7 2 5 0) (sampleHist 3 1 11 0)) = some 312 :=
  have h : VP8LHistogramRemove sampleConsts (sampleHist 7 2 5 0) (sampleHist 3 1 11 0)
      = some (mapTables sub32 sampleConsts (sampleHist 7 2 5 0) (sampleHist 3 1 11 0)) :=
    remove_some_of_le
      (sampleHist_wellFormed (by decide) (by decide) (by decide) (by decide))
      (fun t i hi => sampleHist_rel (fun x y => x ≤ y) (by decide) (by decide) t i hi)
      (fun t i hi => sampleHist_rel (fun x y => isInt (x - y)) (by decide) (by decide) t i hi)
  ⟨h, by decide, ((palette_code_bits_frame sampleConsts _ _).2 _ h).1,
    ((palette_code_bits_frame sampleConsts _ _).2 _ h).2.trans (by decide)⟩

/-! ## Count mass -/

theorem sum_of_getD_add : ∀ (l p a : List Int), l.length = p.length → l.length = a.length →
    (∀ i < l.length, l.getD i 0 = p.getD i 0 + a.getD i 0) → l.sum = p.sum + a.sum
  | [], [], [], _, _, _ => rfl
  | [], [], _ :: _, _, h, _ => by cases h
  | [], _ :: _, _, h, _, _ => by cases h
  | _ :: _, [], _, h, _, _ => by cases h
  | _ :: _, _ :: _, [], _, h, _ => by cases h
  | x :: l, y :: p, z :: a, h1, h2, h => by
    have hl1 : l.length = p.length := Nat.succ.inj h1
    have hl2 : l.length = a.length := Nat.succ.inj h2
    have h0 : x = y + z := h 0 (Nat.succ_pos _)
    have ih := sum_of_getD_add l p a hl1 hl2 (fun i hi => h (i + 1) (Nat.succ_lt_succ hi))
    rw [List.sum_cons, List.sum_cons, List.sum_cons, ih, h0]
    omega

theorem add_count_of_fits {c : Consts} {p a : VP8LHistogram} (hp : p.WellFormed c)
    (hfit : p.SumFits c a) (t : Table) {i : Nat} (hi : i < t.size c) :
    (VP8LHistogramAdd c p a).count t i = p.count t i + a.count t i := by
  rw [add_count hp a t hi]
  exact wrapInt_of_isInt (hfit t i hi)

/-- C13 (mass is additive under add).  With the sums taken as exact integers and
no overflow (every exact sum `p.X[i] + a.X[i]` is representable as an `int`):
for every `p` and `a` and each of the five alphabets, the sum of all counts of
that table after `VP8LHistogramAdd(p, a)` equals the sum of `p`'s old counts plus
the sum of `a`'s counts of that table; hence the total count mass of the merged
histogram is the sum of the two masses. -/
theorem mass_additive (c : Consts) (p a : VP8LHistogram)
    (hp : p.WellFormed c) (ha : a.WellFormed c) (hfit : p.SumFits c a) :
    (∀ t : Table, (VP8LHistogramAdd c p a).tableSum t = p.tableSum t + a.tableSum t) ∧
    (VP8LHistogramAdd c p a).mass = p.mass + a.mass := by
  have htab : ∀ t : Table,
      (VP8LHistogramAdd c p a).tableSum t = p.tableSum t + a.tableSum t := by
    intro t
    have hl := (add_wellFormed hp a).length t
    apply sum_of_getD_add _ _ _ (hl.trans (hp.length t).symm) (hl.trans (ha.length t).symm)
    intro i hi
    exact add_count_of_fits hp hfit t (by rw [← hl]; exact hi)
  refine ⟨htab, ?_⟩
  unfold VP8LHistogram.mass
  rw [htab .literal, htab .red, htab .blue, htab .alpha, htab .distance]
  omega

/-- Witness of C13: adding `(1, 3, 3, ...)` to `(7, 2, 2, ...)`. -/
theorem mass_additive_witness :
    (sampleHist 7 2 5 0).WellFormed sampleConsts ∧
    (sampleHist 1 3 5 0).WellFormed sampleConsts ∧
    (sampleHist 7 2 5 0).SumFits sampleConsts (sampleHist 1 3 5 0) ∧
    (∀ t : Table,
      (VP8LHistogramAdd sampleConsts (sampleHist 7 2 5 0) (sampleHist 1 3 5 0)).tableSum t
        = (sampleHist 7 2 5 0).tableSum t + (sampleHist 1 3 5 0).tableSum t) ∧
    (VP8LHistogramAdd sampleConsts (sampleHist 7 2 5 0) (sampleHist 1 3 5 0)).mass
      = (sampleHist 7 2 5 0).mass + (sampleHist 1 3 5 0).mass :=
  have hp : (sampleHist 7 2 5 0).WellFormed sampleConsts :=
    sampleHist_wellFormed (by decide) (by decide) (by decide) (by decide)
  have ha : (sampleHist 1 3 5 0).WellFormed sampleConsts :=
    sampleHist_wellFormed (by decide) (by decide) (by decide) (by decide)
  have hfit : (sampleHist 7 2 5 0).SumFits sampleConsts (sampleHist 1 3 5 0) :=
    fun t i hi => sampleHist_rel (fun x y => isInt (x + y)) (by decide) (by decide) t i hi
  ⟨hp, ha, hfit, mass_additive sampleConsts _ _ hp ha hfit⟩

end VP8L
